import Mathlib

/-!
Shallow embedding of `src/pyProperties.py` (class `Properties`).

Strings are modelled as `List Char` (`Str`); Python dicts as insertion-ordered
association lists with unique keys (`Dict`); the store state as the two parallel
lists `_isComment : list[int]` and `properties : list[str | dict]` of the source
(`Props`).  File I/O is modelled by passing file contents in and out as `Str`;
raised Python exceptions become `Except PyErr`.
-/

set_option autoImplicit false

abbrev Str := List Char

/-- Coerce a Lean string literal to the `List Char` model of Python strings. -/
def chars (s : String) : Str := s.data

/-- Python `line.find(c)`: index of the first occurrence of character `c`, `-1` if absent. -/
def py_find (c : Char) : Str → Int
  | [] => -1
  | x :: xs =>
    if x = c then 0
    else
      let r := py_find c xs
      if r < 0 then -1 else r + 1

/-- Python `line.replace(c, "")`: remove every occurrence of character `c`. -/
def py_replace (c : Char) : Str → Str
  | [] => []
  | x :: xs => if x = c then py_replace c xs else x :: py_replace c xs

/-- Python `line.split(c)`: split on every occurrence of character `c`. -/
def py_split (c : Char) : Str → List Str
  | [] => [[]]
  | x :: xs =>
    match py_split c xs with
    | [] => [[]]
    | r :: rs => if x = c then [] :: r :: rs else (x :: r) :: rs

/-- Python text-file line iteration: split the contents into lines, each line keeping
its trailing newline character (a final fragment without newline is kept as-is). -/
def py_lines : Str → List Str
  | [] => []
  | x :: xs =>
    if x = '\n' then ['\n'] :: py_lines xs
    else
      match py_lines xs with
      | [] => [[x]]
      | l :: ls => (x :: l) :: ls

/-- A Python `dict[str, str]` as an insertion-ordered association list. -/
abbrev Dict := List (Str × Str)

/-- Python `k in d.keys()`. -/
def dictMem (k : Str) (d : Dict) : Bool := d.any fun p => decide (p.1 = k)

/-- Python `d[k] = v`: replace the value in place if the key exists (keeping its
position), otherwise append the pair at the end. -/
def dictUpdate1 (d : Dict) (k v : Str) : Dict :=
  if dictMem k d then d.map fun p => if p.1 = k then (k, v) else p
  else d ++ [(k, v)]

/-- Python `d.update(arg)`: insert the pairs of `arg` in order. -/
def dictUpdate (d arg : Dict) : Dict := arg.foldl (fun acc p => dictUpdate1 acc p.1 p.2) d

/-- Python `d[k]` lookup (keys are unique in a real dict, so first match). -/
def dictGet (d : Dict) (k : Str) : Option Str :=
  (d.find? fun p => decide (p.1 = k)).map (·.2)

/-- Python `d.popitem()`: remove and return the last-inserted pair; `none` on an
empty dict (where Python raises `KeyError`). -/
def dictPopitem (d : Dict) : Option ((Str × Str) × Dict) :=
  match d.getLast? with
  | none => none
  | some p => some (p, d.dropLast)

/-- An element of the `properties` list: a Python `str` (a comment) or a `dict`. -/
inductive PropValue where
  | str (s : Str)
  | dict (d : Dict)
deriving DecidableEq

/-- The state of a `Properties` instance: the two parallel lists
`_isComment` and `properties` (the bound file name is irrelevant to the claims;
file contents are passed explicitly). -/
structure Props where
  isComment : List Nat
  properties : List PropValue
deriving DecidableEq

/-- The Python exceptions the class can raise, by kind. -/
inductive PyErr where
  | indexError
  | keyError
  | typeError
  | attributeError
  | valueError
deriving DecidableEq

/-- An argument passed to `set_property`: either a dict or some non-dict value. -/
inductive PyObj where
  | dict (d : Dict)
  | other (typeName : String)
deriving DecidableEq

/-- One iteration of the `fread` loop (pyProperties.py lines 61-76): classify one line.
A line whose first character is `#` becomes a comment entry with ALL `#` and ALL
newline characters removed (`line.replace('#', '').replace('\n', '')`); a line whose
first `=` is at a position greater than 0 becomes `{config[0]: config[1]}` where
`config = line.replace('\n', '').split('=')` (split on EVERY `=`); any other line is
dropped. -/
def freadLine (st : Props) (line : Str) : Props :=
  if py_find '#' line = 0 then
    { st with
      properties := st.properties ++ [.str (py_replace '\n' (py_replace '#' line))],
      isComment := st.isComment ++ [1] }
  else if py_find '=' line > 0 then
    let config := py_split '=' (py_replace '\n' line)
    { st with
      properties := st.properties ++ [.dict [(config.getD 0 [], config.getD 1 [])]],
      isComment := st.isComment ++ [0] }
  else st

/-- Model of `Properties.fread` (lines 47-79): iterate over the lines of the file contents,
appending parsed entries to the existing state (a reload appends, it does not replace). -/
def fread (st : Props) (content : Str) : Props :=
  (py_lines content).foldl freadLine st

/-- Model of `Properties.__init__` (lines 32-45): start from two empty lists and read the file. -/
def Props.init (content : Str) : Props := fread ⟨[], []⟩ content

/-- One iteration of the `fwrite` loop (lines 86-93).  A comment entry is emitted as
`'# ' + text + '\n'`; a key-value entry is emitted via `popitem()`, which REMOVES the
pair from the stored dict, so the returned `PropValue` is the mutated entry.  A flag
and value that disagree raise `TypeError` or `AttributeError`; `popitem` on an empty
dict raises `KeyError`. -/
def fwriteEntry (flag : Nat) (v : PropValue) : Except PyErr (Str × PropValue) :=
  if flag ≠ 0 then
    match v with
    | .str s => .ok (chars "# " ++ s ++ ['\n'], .str s)
    | .dict _ => .error .typeError
  else
    match v with
    | .dict d =>
      match dictPopitem d with
      | some ((key, val), rest) => .ok (key ++ '=' :: val ++ ['\n'], .dict rest)
      | none => .error .keyError
    | .str _ => .error .attributeError

/-- The `fwrite` loop over the two parallel lists.  `_isComment[data_num]` on an index
past the end of `_isComment` raises `IndexError`.  Returns the buffer of emitted
lines together with the post-loop `properties` list (mutated by `popitem`). -/
def fwriteAux : List Nat → List PropValue → Except PyErr (List Str × List PropValue)
  | _, [] => .ok ([], [])
  | [], _ :: _ => .error .indexError
  | f :: fs, v :: vs => do
    let (line, w) ← fwriteEntry f v
    let (buf, ws) ← fwriteAux fs vs
    return (line :: buf, w :: ws)

/-- Model of `Properties.fwrite` (lines 81-102): build the buffer, then evaluate
`buffer[-1].rstrip()` — an `IndexError` on an empty buffer, and otherwise a no-op
because the stripped result is discarded — and finally write the concatenated buffer.
Returns the written file contents and the post-call state. -/
def fwrite (st : Props) : Except PyErr (Str × Props) :=
  match fwriteAux st.isComment st.properties with
  | .error e => .error e
  | .ok (buffer, props) =>
    match buffer.getLast? with
    | none => .error .indexError
    | some _ => .ok (buffer.flatten, { st with properties := props })

/-- The `get_all_properties` loop (lines 108-112): fold `dict.update` over the
non-comment entries, indexing `_isComment` in lockstep. -/
def getAllAux : Dict → List Nat → List PropValue → Except PyErr Dict
  | acc, _, [] => .ok acc
  | _, [], _ :: _ => .error .indexError
  | acc, f :: fs, v :: vs =>
    if f ≠ 0 then getAllAux acc fs vs
    else
      match v with
      | .dict d => getAllAux (dictUpdate acc d) fs vs
      | .str _ => .error .valueError

/-- Model of `Properties.get_all_properties` (lines 104-113). -/
def get_all_properties (st : Props) : Except PyErr Dict :=
  getAllAux [] st.isComment st.properties

/-- The `get_property` loop (lines 120-124): return the value of the first non-comment
entry whose keys contain `arg`; falling off the end raises
`IndexError("No configuration item names ...")`. -/
def getPropAux (k : Str) : List Nat → List PropValue → Except PyErr Str
  | _, [] => .error .indexError
  | [], _ :: _ => .error .indexError
  | f :: fs, v :: vs =>
    if f ≠ 0 then getPropAux k fs vs
    else
      match v with
      | .str _ => .error .attributeError
      | .dict d =>
        match dictGet d k with
        | some value => .ok value
        | none => getPropAux k fs vs

/-- Model of `Properties.get_property` (lines 115-124). -/
def get_property (st : Props) (arg : Str) : Except PyErr Str :=
  getPropAux arg st.isComment st.properties

/-- The inner scan of `set_property` (lines 138-142): look for the first non-comment
entry whose keys contain the first key of the argument; on a hit, `update` that entry
in place with the whole argument dict and stop (`break`).  The expression
`list(arg)[0]` sits inside the loop body, guarded by `if not self._isComment[data_num]`,
so it is evaluated only when the scan reaches a non-comment entry: there an empty
argument dict raises `IndexError` (before `.keys()` is touched), while a scan that
never meets a non-comment entry never evaluates it.  `some props` is the updated list
after a hit; `none` means the loop finished without `break` (the `for ... else`
branch appends). -/
def setScan (arg : Dict) : List Nat → List PropValue → Except PyErr (Option (List PropValue))
  | _, [] => .ok none
  | [], _ :: _ => .error .indexError
  | f :: fs, v :: vs =>
    if f ≠ 0 then
      match setScan arg fs vs with
      | .error e => .error e
      | .ok none => .ok none
      | .ok (some ws) => .ok (some (v :: ws))
    else
      match arg.head? with
      | none => .error .indexError
      | some (k0, _) =>
        match v with
        | .str _ => .error .attributeError
        | .dict d =>
          if dictMem k0 d then .ok (some (.dict (dictUpdate d arg) :: vs))
          else
            match setScan arg fs vs with
            | .error e => .error e
            | .ok none => .ok none
            | .ok (some ws) => .ok (some (v :: ws))

/-- Processing of one `set_property` argument (lines 130-146): a non-dict raises
`TypeError`; otherwise the scan either updates the first matching entry in place,
raises whatever the scan raised (in particular `IndexError` from `list(arg)[0]` on an
empty dict, at the first non-comment entry), or — when the loop ends without a
`break`, which includes an empty dict on a store with no non-comment entries —
appends `(arg, 0)` to the parallel lists. -/
def set_one (st : Props) (arg : PyObj) : Except PyErr Props :=
  match arg with
  | .other _ => .error .typeError
  | .dict d =>
    match setScan d st.isComment st.properties with
    | .error e => .error e
    | .ok (some props) => .ok { st with properties := props }
    | .ok none =>
      .ok { isComment := st.isComment ++ [0], properties := st.properties ++ [.dict d] }

/-- Model of `Properties.set_property` (lines 126-147): process the arguments in order and
return `len(kv)`. -/
def set_property (st : Props) (kv : List PyObj) : Except PyErr (Props × Nat) :=
  match kv.foldlM set_one st with
  | .error e => .error e
  | .ok st2 => .ok (st2, kv.length)

/-- The flag `1` goes with a comment string, the flag `0` with a dict. -/
def flagMatches (f : Nat) (v : PropValue) : Bool :=
  match v with
  | .str _ => decide (f = 1)
  | .dict _ => decide (f = 0)

/-- The parallel-lists invariant, pointwise: equal lengths and matching tags. -/
def wfAux : List Nat → List PropValue → Bool
  | [], [] => true
  | f :: fs, v :: vs => flagMatches f v && wfAux fs vs
  | _, _ => false

/-- The implicit invariant of the class: `_isComment` and `properties` have equal
length and `_isComment[i]` tags the variant of `properties[i]`. -/
def wf (st : Props) : Bool := wfAux st.isComment st.properties

/-- Whether the entry list holds at least one key-value (dict) entry: exactly the
stores on which the `set_property` scan reaches a non-comment entry and so evaluates
`list(arg)[0]`. -/
def hasKvEntry (props : List PropValue) : Bool :=
  props.any fun v => match v with | .dict _ => true | .str _ => false

/-- Spec-side description of `Get`: the value of the first entry (in sequence order)
that is a key-value dict containing the key, ignoring comment entries. -/
def firstMatchVal : List PropValue → Str → Option Str
  | [], _ => none
  | .dict d :: vs, k =>
    match dictGet d k with
    | some v => some v
    | none => firstMatchVal vs k
  | .str _ :: vs, k => firstMatchVal vs k

/-- Spec-side description of `Get` including the failure case (`KeyNotFound` is
realised by the source as an `IndexError`). -/
def getSpec (props : List PropValue) (k : Str) : Except PyErr Str :=
  match firstMatchVal props k with
  | some v => .ok v
  | none => .error .indexError

/-- Spec-side description of `GetAll`: fold the key-value entries, in order, into a
fresh mapping, skipping comments, so later duplicates overwrite earlier ones. -/
def getAllSpec (props : List PropValue) : Dict :=
  props.foldl (fun acc v => match v with | .str _ => acc | .dict d => dictUpdate acc d) []

/-- Index of the first entry that is a dict containing key `k` (comments skipped). -/
def firstDictIdx : List PropValue → Str → Option Nat
  | [], _ => none
  | .dict d :: vs, k => if dictMem k d then some 0 else (firstDictIdx vs k).map (· + 1)
  | .str _ :: vs, k => (firstDictIdx vs k).map (· + 1)

/-- Number of entries that are dicts containing key `k`. -/
def countKey (props : List PropValue) (k : Str) : Nat :=
  props.countP fun v => match v with | .dict d => dictMem k d | .str _ => false

/-- The behaviour claimed for `Set` on a single-key pair: it succeeds returning
count 1; the first matching entry is updated in place (no length change) or, with no
match, a new entry is appended; and the number of entries holding the key afterwards
is forced to `max (previous count) 1`, so no duplicate of a present key is introduced. -/
def setSingleSpec (st : Props) (k v : Str) : Prop :=
  ∃ st2,
    set_property st [PyObj.dict [(k, v)]] = .ok (st2, 1) ∧
    countKey st2.properties k = max (countKey st.properties k) 1 ∧
    ((∃ i d, firstDictIdx st.properties k = some i ∧
        st.properties.get? i = some (.dict d) ∧
        st2.properties = st.properties.set i (.dict (dictUpdate d [(k, v)])) ∧
        st2.isComment = st.isComment ∧
        st2.properties.length = st.properties.length) ∨
      (firstDictIdx st.properties k = none ∧
        st2.properties = st.properties ++ [.dict [(k, v)]] ∧
        st2.isComment = st.isComment ++ [0] ∧
        st2.properties.length = st.properties.length + 1))

deriving instance DecidableEq for Except

/-! ### Helper lemmas about the Python string primitives -/

theorem py_find_eq_zero_iff (c : Char) (l : Str) : py_find c l = 0 ↔ l.head? = some c := by
  cases l with
  | nil => simp [py_find]
  | cons x xs =>
    simp only [py_find, List.head?, Option.some.injEq]
    by_cases hx : x = c
    · simp [hx]
    · simp only [hx, if_false, iff_false]
      intro hzero
      by_cases hr : py_find c xs < 0
      · simp [hr] at hzero
      · simp [hr] at hzero
        omega

theorem py_find_append_cons (c : Char) (a b : Str) (h : c ∉ a) :
    py_find c (a ++ c :: b) = a.length := by
  induction a with
  | nil => simp [py_find]
  | cons x xs ih =>
    have hx : x ≠ c := fun hc => h (hc ▸ List.mem_cons_self x xs)
    have hxs : c ∉ xs := fun hc => h (List.mem_cons_of_mem x hc)
    have hr := ih hxs
    have hnn : ¬ ((xs.length : Int) < 0) := by omega
    simp only [List.cons_append, py_find, List.append_eq, hx, if_false]
    rw [hr, if_neg hnn]
    simp only [List.length_cons]
    omega

theorem py_replace_of_not_mem (c : Char) (l : Str) (h : c ∉ l) : py_replace c l = l := by
  induction l with
  | nil => rfl
  | cons x xs ih =>
    have hx : x ≠ c := fun hc => h (hc ▸ List.mem_cons_self x xs)
    have hxs : c ∉ xs := fun hc => h (List.mem_cons_of_mem x hc)
    simp [py_replace, hx, ih hxs]

theorem py_replace_append (c : Char) (a b : Str) :
    py_replace c (a ++ b) = py_replace c a ++ py_replace c b := by
  induction a with
  | nil => rfl
  | cons x xs ih =>
    by_cases hx : x = c <;> simp [py_replace, hx, ih]

theorem mem_of_mem_py_replace {c x : Char} : ∀ {l : Str}, x ∈ py_replace c l → x ∈ l := by
  intro l
  induction l with
  | nil => simp [py_replace]
  | cons y ys ih =>
    by_cases hy : y = c
    · intro hm
      simp only [py_replace, hy, if_true] at hm
      exact List.mem_cons_of_mem y (ih hm)
    · intro hm
      simp only [py_replace, hy, if_false, List.mem_cons] at hm
      rcases hm with hm | hm
      · exact hm ▸ List.mem_cons_self y ys
      · exact List.mem_cons_of_mem y (ih hm)

theorem py_split_ne_nil (c : Char) (l : Str) : py_split c l ≠ [] := by
  cases l with
  | nil => simp [py_split]
  | cons x xs =>
    simp only [py_split]
    rcases hs : py_split c xs with _ | ⟨r, rs⟩
    · simp
    · by_cases hx : x = c <;> simp [hx]

theorem py_split_append_cons (c : Char) (a b : Str) (h : c ∉ a) :
    py_split c (a ++ c :: b) = a :: py_split c b := by
  induction a with
  | nil =>
    simp only [List.nil_append, py_split]
    rcases hs : py_split c b with _ | ⟨r, rs⟩
    · exact absurd hs (py_split_ne_nil c b)
    · simp
  | cons x xs ih =>
    have hx : x ≠ c := fun hc => h (hc ▸ List.mem_cons_self x xs)
    have hxs : c ∉ xs := fun hc => h (List.mem_cons_of_mem x hc)
    simp only [List.cons_append, py_split, List.append_eq, ih hxs, hx, if_false]

theorem py_lines_single (l : Str) (h : '\n' ∉ l) : py_lines (l ++ ['\n']) = [l ++ ['\n']] := by
  induction l with
  | nil => simp [py_lines]
  | cons x xs ih =>
    have hx : x ≠ '\n' := fun hc => h (hc ▸ List.mem_cons_self x xs)
    have hxs : '\n' ∉ xs := fun hc => h (List.mem_cons_of_mem x hc)
    simp [py_lines, hx, ih hxs]

/-! ### Helper lemmas about the parallel-lists invariant -/

theorem wfAux_append : ∀ (fs : List Nat) (vs : List PropValue) (f : Nat) (v : PropValue),
    wfAux fs vs = true → flagMatches f v = true → wfAux (fs ++ [f]) (vs ++ [v]) = true
  | [], [], f, v, _, hm => by simp [wfAux, hm]
  | [], _ :: _, _, _, h, _ => by simp [wfAux] at h
  | _ :: _, [], _, _, h, _ => by simp [wfAux] at h
  | g :: fs, w :: vs, f, v, h, hm => by
    simp only [wfAux, Bool.and_eq_true] at h
    simpa [wfAux, h.1] using wfAux_append fs vs f v h.2 hm

theorem wf_freadLine (st : Props) (line : Str) (h : wf st = true) :
    wf (freadLine st line) = true := by
  unfold freadLine
  split
  · exact wfAux_append _ _ _ _ h rfl
  · split
    · exact wfAux_append _ _ _ _ h rfl
    · exact h

theorem wf_fread (st : Props) (content : Str) (h : wf st = true) :
    wf (fread st content) = true := by
  unfold fread
  induction py_lines content generalizing st with
  | nil => exact h
  | cons l ls ih => exact ih _ (wf_freadLine st l h)

theorem wf_init (content : Str) : wf (Props.init content) = true :=
  wf_fread _ _ rfl

/-! ### Helper lemmas about the set_property scan -/

theorem flagMatches_one_str {f : Nat} {v : PropValue} (hm : flagMatches f v = true)
    (hs : ∃ s, v = .str s) : f = 1 := by
  rcases hs with ⟨s, rfl⟩
  simpa [flagMatches] using hm

theorem flagMatches_zero_dict {f : Nat} {v : PropValue} (hm : flagMatches f v = true)
    (hd : ∃ d, v = .dict d) : f = 0 := by
  rcases hd with ⟨d, rfl⟩
  simpa [flagMatches] using hm

theorem setScan_spec : ∀ (fs : List Nat) (vs : List PropValue) (arg : Dict) (k0 w0 : Str),
    wfAux fs vs = true → arg.head? = some (k0, w0) →
    (firstDictIdx vs k0 = none ∧ setScan arg fs vs = .ok none) ∨
    (∃ i d, firstDictIdx vs k0 = some i ∧ vs.get? i = some (.dict d) ∧ dictMem k0 d = true ∧
      setScan arg fs vs = .ok (some (vs.set i (.dict (dictUpdate d arg)))))
  | fs, [], _, _, _, _, _ => by
    left
    cases fs <;> simp [firstDictIdx, setScan]
  | [], _ :: _, _, _, _, h, _ => by simp [wfAux] at h
  | f :: fs, v :: vs, arg, k0, w0, h, hh => by
    simp only [wfAux, Bool.and_eq_true] at h
    cases v with
    | str s =>
      have hf : f = 1 := flagMatches_one_str h.1 ⟨s, rfl⟩
      rcases setScan_spec fs vs arg k0 w0 h.2 hh with ⟨hnone, hscan⟩ |
        ⟨i, d, hidx, hget, hmem, hscan⟩
      · left
        simp [firstDictIdx, setScan, hf, hnone, hscan]
      · right
        exact ⟨i + 1, d, by simp [firstDictIdx, hidx], by simpa [List.get?] using hget,
          hmem, by simp [setScan, hf, hscan, List.set]⟩
    | dict d =>
      have hf : f = 0 := flagMatches_zero_dict h.1 ⟨d, rfl⟩
      by_cases hmem : dictMem k0 d = true
      · right
        exact ⟨0, d, by simp [firstDictIdx, hmem], rfl, hmem,
          by simp [setScan, hf, hh, hmem, List.set]⟩
      · rcases setScan_spec fs vs arg k0 w0 h.2 hh with ⟨hnone, hscan⟩ |
          ⟨i, dd, hidx, hget, hm2, hscan⟩
        · left
          simp [firstDictIdx, setScan, hf, hh, hmem, hnone, hscan]
        · right
          exact ⟨i + 1, dd, by simp [firstDictIdx, hmem, hidx], by simpa [List.get?] using hget,
            hm2, by simp [setScan, hf, hh, hmem, hscan, List.set]⟩

theorem setScan_empty_arg : ∀ (fs : List Nat) (vs : List PropValue),
    wfAux fs vs = true →
    setScan [] fs vs = (if hasKvEntry vs = true then .error .indexError else .ok none)
  | fs, [], _ => by cases fs <;> simp [setScan, hasKvEntry]
  | [], _ :: _, h => by simp [wfAux] at h
  | f :: fs, v :: vs, h => by
    simp only [wfAux, Bool.and_eq_true] at h
    cases v with
    | str s =>
      have hf : f = 1 := flagMatches_one_str h.1 ⟨s, rfl⟩
      subst hf
      have hrec := setScan_empty_arg fs vs h.2
      have hcons : hasKvEntry (PropValue.str s :: vs) = hasKvEntry vs := by
        simp [hasKvEntry]
      simp only [setScan, if_pos (show (1 : Nat) ≠ 0 by omega), hrec, hcons]
      cases hb : hasKvEntry vs <;> simp [hb]
    | dict d =>
      have hf : f = 0 := flagMatches_zero_dict h.1 ⟨d, rfl⟩
      subst hf
      simp [setScan, hasKvEntry, List.head?]

theorem wfAux_set_dict : ∀ (fs : List Nat) (vs : List PropValue) (i : Nat) (d d2 : Dict),
    wfAux fs vs = true → vs.get? i = some (.dict d) →
    wfAux fs (vs.set i (.dict d2)) = true
  | _, [], i, _, _, _, hg => by simp [List.get?] at hg
  | [], _ :: _, _, _, _, h, _ => by simp [wfAux] at h
  | f :: fs, v :: vs, 0, d, d2, h, hg => by
    simp only [List.get?, Option.some.injEq] at hg
    simp only [wfAux, Bool.and_eq_true] at h
    have hf : f = 0 := flagMatches_zero_dict h.1 ⟨d, hg⟩
    simp [List.set, wfAux, hf, flagMatches, h.2]
  | f :: fs, v :: vs, i + 1, d, d2, h, hg => by
    simp only [List.get?] at hg
    simp only [wfAux, Bool.and_eq_true] at h
    simp only [List.set, wfAux, Bool.and_eq_true]
    exact ⟨h.1, wfAux_set_dict fs vs i d d2 h.2 hg⟩

theorem wf_set_one (st : Props) (arg : PyObj) (st2 : Props) (h : wf st = true)
    (he : set_one st arg = .ok st2) : wf st2 = true := by
  cases arg with
  | other t => simp [set_one] at he
  | dict d =>
    cases d with
    | nil =>
      have hs := setScan_empty_arg st.isComment st.properties h
      by_cases hk : hasKvEntry st.properties = true
      · rw [if_pos hk] at hs
        simp [set_one, hs] at he
      · rw [if_neg hk] at hs
        simp only [set_one, hs] at he
        cases he
        exact wfAux_append _ _ _ _ h rfl
    | cons p d2 =>
      obtain ⟨k0, w0⟩ := p
      rcases setScan_spec st.isComment st.properties ((k0, w0) :: d2) k0 w0 h rfl with
        ⟨_, hscan⟩ | ⟨i, dd, _, hget, _, hscan⟩
      · simp only [set_one, hscan] at he
        cases he
        exact wfAux_append _ _ _ _ h rfl
      · simp only [set_one, hscan] at he
        cases he
        exact wfAux_set_dict _ _ i dd _ h hget


theorem wf_foldlM_set_one : ∀ (kv : List PyObj) (st st2 : Props), wf st = true →
    kv.foldlM set_one st = .ok st2 → wf st2 = true
  | [], st, st2, h, he => by
    rw [List.foldlM_nil] at he
    cases he
    exact h
  | x :: xs, st, st2, h, he => by
    rw [List.foldlM_cons] at he
    rcases ho : set_one st x with e | st1 <;> rw [ho] at he
    · exact Except.noConfusion he
    · exact wf_foldlM_set_one xs st1 st2 (wf_set_one st x st1 h ho) he

theorem wf_set_property (st : Props) (kv : List PyObj) (st2 : Props) (n : Nat)
    (h : wf st = true) (he : set_property st kv = .ok (st2, n)) : wf st2 = true := by
  unfold set_property at he
  rcases hf : kv.foldlM set_one st with e | st3 <;> rw [hf] at he
  · exact Except.noConfusion he
  · cases he
    exact wf_foldlM_set_one kv st _ h hf

theorem fwriteEntry_flag (f : Nat) (v w : PropValue) (line : Str)
    (hm : flagMatches f v = true) (he : fwriteEntry f v = .ok (line, w)) :
    flagMatches f w = true := by
  cases v with
  | str s =>
    have hf : f = 1 := flagMatches_one_str hm ⟨s, rfl⟩
    subst hf
    have h2 : (Except.ok (chars "# " ++ s ++ ['\n'], PropValue.str s) :
        Except PyErr (Str × PropValue)) = .ok (line, w) := he
    cases h2
    rfl
  | dict d =>
    have hf : f = 0 := flagMatches_zero_dict hm ⟨d, rfl⟩
    subst hf
    rcases hp : dictPopitem d with _ | ⟨⟨key, val⟩, rest⟩
    · have h2 : (Except.error PyErr.keyError : Except PyErr (Str × PropValue)) =
          .ok (line, w) := by
        rw [← he]
        simp [fwriteEntry, hp]
      cases h2
    · have h2 : (Except.ok (key ++ '=' :: val ++ ['\n'], PropValue.dict rest) :
          Except PyErr (Str × PropValue)) = .ok (line, w) := by
        rw [← he]
        simp [fwriteEntry, hp]
      cases h2
      rfl

theorem wf_fwriteAux : ∀ (fs : List Nat) (vs : List PropValue) (buf : List Str)
    (ws : List PropValue), wfAux fs vs = true → fwriteAux fs vs = .ok (buf, ws) →
    wfAux fs ws = true
  | fs, [], buf, ws, h, he => by
    cases fs with
    | nil =>
      cases he
      exact h
    | cons f fs => simp [wfAux] at h
  | [], _ :: _, _, _, h, _ => by simp [wfAux] at h
  | f :: fs, v :: vs, buf, ws, h, he => by
    simp only [wfAux, Bool.and_eq_true] at h
    rcases hEntry : fwriteEntry f v with e | ⟨line, w⟩
    · have h2 : (Except.error e : Except PyErr (List Str × List PropValue)) = .ok (buf, ws) := by
        rw [← he]
        simp only [fwriteAux, hEntry]
        rfl
      cases h2
    · rcases hr : fwriteAux fs vs with e | ⟨buf2, ws2⟩
      · have h2 : (Except.error e : Except PyErr (List Str × List PropValue)) = .ok (buf, ws) := by
          rw [← he]
          simp only [fwriteAux, hEntry, hr]
          rfl
        cases h2
      · have h2 : (Except.ok (line :: buf2, w :: ws2) :
            Except PyErr (List Str × List PropValue)) = .ok (buf, ws) := by
          rw [← he]
          simp only [fwriteAux, hEntry, hr]
          rfl
        cases h2
        simp only [wfAux, Bool.and_eq_true]
        exact ⟨fwriteEntry_flag f v w line h.1 hEntry, wf_fwriteAux fs vs buf2 ws2 h.2 hr⟩

theorem wf_fwrite (st : Props) (out : Str) (st2 : Props) (h : wf st = true)
    (he : fwrite st = .ok (out, st2)) : wf st2 = true := by
  unfold fwrite at he
  rcases ha : fwriteAux st.isComment st.properties with e | ⟨buffer, props⟩ <;> rw [ha] at he
  · exact Except.noConfusion he
  · dsimp only at he
    rcases hl : buffer.getLast? with _ | l <;> rw [hl] at he
    · exact Except.noConfusion he
    · cases he
      exact wf_fwriteAux _ _ buffer props h ha

/-! ### Relating the get loops to their spec-side descriptions -/

theorem getAllAux_eq_spec : ∀ (fs : List Nat) (vs : List PropValue) (acc : Dict),
    wfAux fs vs = true →
    getAllAux acc fs vs =
      .ok (vs.foldl (fun a v => match v with | .str _ => a | .dict d => dictUpdate a d) acc)
  | fs, [], acc, _ => by cases fs <;> simp [getAllAux]
  | [], _ :: _, _, h => by simp [wfAux] at h
  | f :: fs, v :: vs, acc, h => by
    simp only [wfAux, Bool.and_eq_true] at h
    cases v with
    | str s =>
      have hf : f = 1 := flagMatches_one_str h.1 ⟨s, rfl⟩
      subst hf
      simpa [getAllAux] using getAllAux_eq_spec fs vs acc h.2
    | dict d =>
      have hf : f = 0 := flagMatches_zero_dict h.1 ⟨d, rfl⟩
      subst hf
      simpa [getAllAux] using getAllAux_eq_spec fs vs (dictUpdate acc d) h.2

theorem getPropAux_eq_spec : ∀ (fs : List Nat) (vs : List PropValue) (k : Str),
    wfAux fs vs = true → getPropAux k fs vs = getSpec vs k
  | fs, [], k, _ => by cases fs <;> simp [getPropAux, getSpec, firstMatchVal]
  | [], _ :: _, _, h => by simp [wfAux] at h
  | f :: fs, v :: vs, k, h => by
    simp only [wfAux, Bool.and_eq_true] at h
    cases v with
    | str s =>
      have hf : f = 1 := flagMatches_one_str h.1 ⟨s, rfl⟩
      subst hf
      simpa [getPropAux, getSpec, firstMatchVal] using getPropAux_eq_spec fs vs k h.2
    | dict d =>
      have hf : f = 0 := flagMatches_zero_dict h.1 ⟨d, rfl⟩
      subst hf
      rcases hg : dictGet d k with _ | value
      · simpa [getPropAux, getSpec, firstMatchVal, hg] using getPropAux_eq_spec fs vs k h.2
      · simp [getPropAux, getSpec, firstMatchVal, hg]

/-! ### Counting lemmas for the no-duplicate-key property of set_property -/

theorem dictMem_dictUpdate1_self (d : Dict) (k v : Str) :
    dictMem k (dictUpdate1 d k v) = true := by
  unfold dictUpdate1
  by_cases hm : dictMem k d = true
  · rw [if_pos hm]
    unfold dictMem at hm ⊢
    rw [List.any_map]
    rcases List.any_eq_true.mp hm with ⟨p, hp, hpk⟩
    refine List.any_eq_true.mpr ⟨p, hp, ?_⟩
    simp only [Function.comp]
    have : p.1 = k := of_decide_eq_true hpk
    simp [this]
  · rw [if_neg hm]
    unfold dictMem
    rw [List.any_append]
    simp [List.any_cons]

theorem dictMem_dictUpdate_singleton (d : Dict) (k v : Str) :
    dictMem k (dictUpdate d [(k, v)]) = true := by
  simpa [dictUpdate] using dictMem_dictUpdate1_self d k v

theorem countP_set_eq {α : Type} (p : α → Bool) : ∀ (vs : List α) (i : Nat) (a b : α),
    vs.get? i = some a → p a = p b → (vs.set i b).countP p = vs.countP p
  | [], i, _, _, hg, _ => by simp [List.get?] at hg
  | v :: vs, 0, a, b, hg, hpq => by
    simp only [List.get?, Option.some.injEq] at hg
    subst hg
    simp [List.set, List.countP_cons, hpq]
  | v :: vs, i + 1, a, b, hg, hpq => by
    simp only [List.get?] at hg
    simp only [List.set, List.countP_cons, countP_set_eq p vs i a b hg hpq]

theorem countP_pos_of_get {α : Type} (p : α → Bool) : ∀ (vs : List α) (i : Nat) (a : α),
    vs.get? i = some a → p a = true → 0 < vs.countP p
  | [], i, _, hg, _ => by simp [List.get?] at hg
  | v :: vs, 0, a, hg, hp => by
    simp only [List.get?, Option.some.injEq] at hg
    subst hg
    simp [List.countP_cons, hp]
  | v :: vs, i + 1, a, hg, hp => by
    simp only [List.get?] at hg
    have := countP_pos_of_get p vs i a hg hp
    simp only [List.countP_cons]
    omega

theorem countKey_zero_of_firstDictIdx_none : ∀ (vs : List PropValue) (k : Str),
    firstDictIdx vs k = none → countKey vs k = 0
  | [], _, _ => rfl
  | .str s :: vs, k, h => by
    simp only [firstDictIdx, Option.map_eq_none'] at h
    simpa [countKey, List.countP_cons] using countKey_zero_of_firstDictIdx_none vs k h
  | .dict d :: vs, k, h => by
    by_cases hm : dictMem k d = true
    · simp [firstDictIdx, hm] at h
    · simp only [firstDictIdx, if_neg hm, Option.map_eq_none'] at h
      have hrec := countKey_zero_of_firstDictIdx_none vs k h
      simp only [countKey, List.countP_cons] at hrec ⊢
      simp [hrec, hm]

/-! ### Claim theorems -/

/-- C1: the claim says Save (`fwrite`) does not mutate the in-memory entries.  The
code contradicts this: `popitem()` on line 92 removes the key-value pair from each
stored dict, so after a Save every KeyValue entry is an empty dict, a subsequent
GetAll sees no pairs, and a second Save raises `KeyError`.  This theorem evaluates
the model at the failing input: a store with `_isComment = [0]` and
`properties = [{"a": "1"}]`. -/
theorem C1_save_mutates_state :
    fwrite (Props.mk [0] [.dict [(chars "a", chars "1")]]) =
      .ok (chars "a=1\n", Props.mk [0] [.dict []]) ∧
    get_all_properties (Props.mk [0] [.dict [(chars "a", chars "1")]]) =
      .ok [(chars "a", chars "1")] ∧
    get_all_properties (Props.mk [0] [.dict []]) = .ok [] ∧
    fwrite (Props.mk [0] [.dict []]) = .error .keyError := by
  refine ⟨rfl, rfl, rfl, rfl⟩

/-- C2 counterexample: on the line `k=v1=v2` the code stores the pair
("k", "v1") — `split('=')` splits on every `=` and `config[1]` is only the segment
between the first and the second `=` — not ("k", "v1=v2") as the claim states. -/
theorem C2_counterexample :
    Props.init (chars "k=v1=v2\n") = Props.mk [0] [.dict [(chars "k", chars "v1")]] ∧
    Props.mk [0] [.dict [(chars "k", chars "v1")]] ≠
      Props.mk [0] [.dict [(chars "k", chars "v1=v2")]] := by
  exact ⟨rfl, by decide⟩

/-- C2 amended: a key-value line is split on EVERY `=`; the key is the part before
the first `=` and the value is the part between the first and the second `=` (the
rest of the line is dropped), so for every line of the form `k=v1=v2` the stored
entry is the pair (k, v1). -/
theorem C2_split_on_every_equals (st : Props) (k v1 v2 : Str)
    (hk : k ≠ []) (hkh : k.head? ≠ some '#')
    (hke : '=' ∉ k) (hv1e : '=' ∉ v1)
    (hkn : '\n' ∉ k) (hv1n : '\n' ∉ v1) (hv2n : '\n' ∉ v2) :
    fread st (k ++ '=' :: v1 ++ '=' :: v2 ++ ['\n']) =
      { st with isComment := st.isComment ++ [0],
                properties := st.properties ++ [.dict [(k, v1)]] } := by
  have hbody : '\n' ∉ k ++ '=' :: v1 ++ '=' :: v2 := by
    intro hm
    rcases List.mem_append.mp hm with hm | hm
    · rcases List.mem_append.mp hm with hm | hm
      · exact hkn hm
      · rcases List.mem_cons.mp hm with hm | hm
        · exact absurd hm.symm (by decide)
        · exact hv1n hm
    · rcases List.mem_cons.mp hm with hm | hm
      · exact absurd hm.symm (by decide)
      · exact hv2n hm
  have hassoc : k ++ '=' :: v1 ++ '=' :: v2 ++ ['\n'] =
      (k ++ '=' :: v1 ++ '=' :: v2) ++ ['\n'] := by
    simp
  rw [hassoc]
  have hlines := py_lines_single (k ++ '=' :: v1 ++ '=' :: v2) hbody
  unfold fread
  rw [hlines]
  simp only [List.foldl]
  rcases List.exists_cons_of_ne_nil hk with ⟨c, k2, rfl⟩
  have hch : c ≠ '#' := by
    simp only [List.head?, ne_eq, Option.some.injEq] at hkh
    exact hkh
  have hfindc : ¬ py_find '#' ((c :: k2 ++ '=' :: v1 ++ '=' :: v2) ++ ['\n']) = 0 := by
    rw [py_find_eq_zero_iff]
    simp [hch]
  have hfinde : py_find '=' ((c :: k2 ++ '=' :: v1 ++ '=' :: v2) ++ ['\n']) =
      (c :: k2).length := by
    have : (c :: k2 ++ '=' :: v1 ++ '=' :: v2) ++ ['\n'] =
        (c :: k2) ++ '=' :: (v1 ++ '=' :: v2 ++ ['\n']) := by simp
    rw [this]
    exact py_find_append_cons '=' (c :: k2) (v1 ++ '=' :: v2 ++ ['\n']) hke
  have hreplace : py_replace '\n' ((c :: k2 ++ '=' :: v1 ++ '=' :: v2) ++ ['\n']) =
      c :: k2 ++ '=' :: v1 ++ '=' :: v2 := by
    rw [py_replace_append, py_replace_of_not_mem _ _ hbody]
    simp [py_replace]
  have hsplit : py_split '=' (c :: k2 ++ '=' :: v1 ++ '=' :: v2) =
      (c :: k2) :: v1 :: py_split '=' v2 := by
    have h1 : c :: k2 ++ '=' :: v1 ++ '=' :: v2 =
        (c :: k2) ++ '=' :: (v1 ++ '=' :: v2) := by simp
    rw [h1, py_split_append_cons '=' (c :: k2) _ hke,
      py_split_append_cons '=' v1 v2 hv1e]
  unfold freadLine
  rw [if_neg hfindc, hreplace, hsplit, if_pos]
  · simp [List.getD]
  · rw [hfinde]
    simp only [List.length_cons]
    omega

/-- C2 amended claim witnessed at the line `k=v1=v2` on an empty store. -/
theorem C2_amended_witness :
    fread (Props.mk [] []) (chars "k" ++ '=' :: chars "v1" ++ '=' :: chars "v2" ++ ['\n']) =
      { isComment := [0], properties := [.dict [(chars "k", chars "v1")]] } :=
  C2_split_on_every_equals (Props.mk [] []) (chars "k") (chars "v1") (chars "v2")
    (by decide) (by decide) (by decide) (by decide) (by decide) (by decide) (by decide)

/-- C3 counterexample: loading `# hello\nfoo=bar\n` stores the comment text
" hello" — `replace('#', '')` removes only the `#` and keeps the following space —
not "hello" as claimed, and saving that store emits `#  hello\n` (the `'# '` prefix
plus the stored " hello"), i.e. two spaces, not the original bytes. -/
theorem C3_counterexample :
    Props.init (chars "# hello\nfoo=bar\n") =
      Props.mk [1, 0] [.str (chars " hello"), .dict [(chars "foo", chars "bar")]] ∧
    Props.mk [1, 0] [.str (chars " hello"), .dict [(chars "foo", chars "bar")]] ≠
      Props.mk [1, 0] [.str (chars "hello"), .dict [(chars "foo", chars "bar")]] ∧
    fwrite (Props.init (chars "# hello\nfoo=bar\n")) =
      .ok (chars "#  hello\nfoo=bar\n", Props.mk [1, 0] [.str (chars " hello"), .dict []]) ∧
    chars "#  hello\nfoo=bar\n" ≠ chars "# hello\nfoo=bar\n" := by
  exact ⟨rfl, by decide, rfl, by decide⟩

/-- C3 amended: loading `# hello\nfoo=bar\n` yields entries
[Comment(" hello"), KeyValue("foo", "bar")] (the space after `#` is part of the
stored text), and saving that store writes back `#  hello\nfoo=bar\n` — the comment
gains one extra space on every load/save round trip — while also emptying the
stored key-value dict (the C1 mutation). -/
theorem C3_roundtrip_amended :
    Props.init (chars "# hello\nfoo=bar\n") =
      Props.mk [1, 0] [.str (chars " hello"), .dict [(chars "foo", chars "bar")]] ∧
    fwrite (Props.mk [1, 0] [.str (chars " hello"), .dict [(chars "foo", chars "bar")]]) =
      .ok (chars "#  hello\nfoo=bar\n",
        Props.mk [1, 0] [.str (chars " hello"), .dict []]) := by
  exact ⟨rfl, rfl⟩

/-- C4 counterexample: saving a store with empty `entries` does not succeed — the
trailing-newline trim `buffer[-1].rstrip()` indexes the empty buffer and raises
`IndexError`, so no file is written. -/
theorem C4_counterexample :
    fwrite (Props.mk [] []) = .error .indexError := by
  exact rfl

/-- C4 amended: on empty `entries` the write loop itself completes with an empty
buffer, but `fwrite` then raises `IndexError` at `buffer[-1].rstrip()` before
opening the file, so saving an empty store fails instead of producing an empty
file. -/
theorem C4_empty_save_raises :
    fwriteAux [] [] = .ok ([], []) ∧
    fwrite (Props.mk [] []) = .error .indexError := by
  exact ⟨rfl, rfl⟩

/-- C5 counterexample: a mapping with two keys is NOT rejected: `set_property` on an
empty store with the argument `{"a": "1", "b": "2"}` succeeds, appends the whole
two-key mapping as one entry and returns 1, contradicting the claim that every
non-single-key mapping fails. -/
theorem C5_counterexample :
    set_property (Props.mk [] []) [.dict [(chars "a", chars "1"), (chars "b", chars "2")]] =
      .ok (Props.mk [0] [.dict [(chars "a", chars "1"), (chars "b", chars "2")]], 1) := by
  exact rfl

/-- C5 amended: `set_property` rejects only non-dict arguments (`TypeError`) and, via
`list(arg)[0]`, an empty dict (`IndexError`); a dict with more than one key is
accepted — its first key drives the search and the whole mapping is stored — and on
a well-formed store any dict with at least one key succeeds. -/
theorem C5_set_validation_amended (st : Props) (t : String) (k0 v0 : Str) (d : Dict)
    (h : wf st = true) :
    set_property st [.other t] = .error .typeError ∧
    (hasKvEntry st.properties = true →
      set_property st [.dict []] = .error .indexError) ∧
    (hasKvEntry st.properties = false →
      set_property st [.dict []] =
        .ok (Props.mk (st.isComment ++ [0]) (st.properties ++ [.dict []]), 1)) ∧
    set_property (Props.mk [1] [.str (chars "c")]) [.dict []] =
      .ok (Props.mk [1, 0] [.str (chars "c"), .dict []], 1) ∧
    set_property (Props.mk [] []) [.dict [(chars "a", chars "1"), (chars "b", chars "2")]] =
      .ok (Props.mk [0] [.dict [(chars "a", chars "1"), (chars "b", chars "2")]], 1) ∧
    ∃ st2, set_property st [.dict ((k0, v0) :: d)] = .ok (st2, 1) := by
  have hs := setScan_empty_arg st.isComment st.properties h
  refine ⟨rfl, ?_, ?_, rfl, rfl, ?_⟩
  · intro hk
    rw [if_pos hk] at hs
    unfold set_property
    rw [List.foldlM_cons]
    simp only [set_one, hs]
    rfl
  · intro hk
    rw [if_neg (by simp [hk])] at hs
    unfold set_property
    rw [List.foldlM_cons]
    simp only [set_one, hs]
    rfl
  · rcases setScan_spec st.isComment st.properties ((k0, v0) :: d) k0 v0 h rfl with
      ⟨_, hscan⟩ | ⟨i, dd, _, _, _, hscan⟩
    · refine ⟨Props.mk (st.isComment ++ [0])
        (st.properties ++ [PropValue.dict ((k0, v0) :: d)]), ?_⟩
      unfold set_property
      rw [List.foldlM_cons]
      simp only [set_one, hscan]
      rfl
    · refine ⟨Props.mk st.isComment
        (st.properties.set i (PropValue.dict (dictUpdate dd ((k0, v0) :: d)))), ?_⟩
      unfold set_property
      rw [List.foldlM_cons]
      simp only [set_one, hscan]
      rfl

/-- C5 amended claim witnessed on a concrete well-formed store holding one
key-value entry (so the empty-dict argument hits the in-loop IndexError there). -/
theorem C5_amended_witness :
    set_property (Props.mk [0] [.dict [(chars "x", chars "9")]]) [.other "int"] =
      .error .typeError ∧
    (hasKvEntry [PropValue.dict [(chars "x", chars "9")]] = true →
      set_property (Props.mk [0] [.dict [(chars "x", chars "9")]]) [.dict []] =
        .error .indexError) ∧
    (hasKvEntry [PropValue.dict [(chars "x", chars "9")]] = false →
      set_property (Props.mk [0] [.dict [(chars "x", chars "9")]]) [.dict []] =
        .ok (Props.mk ([0] ++ [0]) ([PropValue.dict [(chars "x", chars "9")]] ++ [.dict []]), 1)) ∧
    set_property (Props.mk [1] [.str (chars "c")]) [.dict []] =
      .ok (Props.mk [1, 0] [.str (chars "c"), .dict []], 1) ∧
    set_property (Props.mk [] []) [.dict [(chars "a", chars "1"), (chars "b", chars "2")]] =
      .ok (Props.mk [0] [.dict [(chars "a", chars "1"), (chars "b", chars "2")]], 1) ∧
    ∃ st2, set_property (Props.mk [0] [.dict [(chars "x", chars "9")]])
      [.dict [(chars "a", chars "1")]] = .ok (st2, 1) :=
  C5_set_validation_amended (Props.mk [0] [.dict [(chars "x", chars "9")]]) "int"
    (chars "a") (chars "1") [] (by decide)

/-- C6 counterexample: loading the comment line `#a#b` stores the text "ab" —
`replace('#', '')` removes EVERY `#`, interior ones included — not "a#b" as the
claim (only the leading `#` stripped) requires. -/
theorem C6_counterexample :
    Props.init (chars "#a#b\n") = Props.mk [1] [.str (chars "ab")] ∧
    Props.mk [1] [.str (chars "ab")] ≠ Props.mk [1] [.str (chars "a#b")] := by
  exact ⟨rfl, by decide⟩

/-- C6 amended: for a comment line the trailing newline is stripped and ALL `#`
characters are removed (`line.replace('#', '')`), interior ones included; every
other character, interior whitespace included, is preserved — so the stored text is
the line body verbatim exactly when the body contains no further `#`. -/
theorem C6_comment_strip_amended (st : Props) (rest : Str) (h : '\n' ∉ rest) :
    fread st ('#' :: rest ++ ['\n']) =
      { st with isComment := st.isComment ++ [1],
                properties := st.properties ++ [.str (py_replace '#' rest)] } ∧
    ('#' ∉ rest → py_replace '#' rest = rest) := by
  constructor
  · have hbody : '\n' ∉ '#' :: rest := by
      intro hm
      rcases List.mem_cons.mp hm with hm | hm
      · exact absurd hm (by decide)
      · exact h hm
    have hlines := py_lines_single ('#' :: rest) hbody
    unfold fread
    rw [show '#' :: rest ++ ['\n'] = ('#' :: rest) ++ ['\n'] from rfl, hlines]
    simp only [List.foldl]
    unfold freadLine
    rw [if_pos (by rw [py_find_eq_zero_iff]; rfl)]
    have hrepl : py_replace '\n' (py_replace '#' (('#' :: rest) ++ ['\n'])) =
        py_replace '#' rest := by
      rw [List.cons_append, show py_replace '#' ('#' :: (rest ++ ['\n'])) =
          py_replace '#' (rest ++ ['\n']) from by simp [py_replace],
        py_replace_append]
      have h1 : py_replace '#' ['\n'] = ['\n'] := rfl
      rw [h1, py_replace_append]
      have h2 : '\n' ∉ py_replace '#' rest := fun hm => h (mem_of_mem_py_replace hm)
      rw [py_replace_of_not_mem _ _ h2]
      simp [py_replace]
    rw [hrepl]
  · exact py_replace_of_not_mem '#' rest

/-- C6 amended claim witnessed on the comment line `# a  b` (interior whitespace). -/
theorem C6_amended_witness :
    fread (Props.mk [] []) ('#' :: chars " a  b" ++ ['\n']) =
      { isComment := [1], properties := [.str (py_replace '#' (chars " a  b"))] } ∧
    ('#' ∉ chars " a  b" → py_replace '#' (chars " a  b") = chars " a  b") :=
  C6_comment_strip_amended (Props.mk [] []) (chars " a  b") (by decide)

/-- C7: on a well-formed store, `set_property` with a single-key pair succeeds and
returns 1; if some entry holds the key, the first such entry (in sequence order) is
updated in place with no length change, otherwise exactly one entry is appended at
the end; and the number of entries holding the key afterwards is
`max (previous count) 1`, so no duplicate of an already-present key is introduced. -/
theorem C7_set_single_key (st : Props) (k v : Str) (h : wf st = true) :
    setSingleSpec st k v := by
  rcases setScan_spec st.isComment st.properties [(k, v)] k v h rfl with
    ⟨hnone, hscan⟩ | ⟨i, d, hidx, hget, hmem, hscan⟩
  · refine ⟨Props.mk (st.isComment ++ [0]) (st.properties ++ [PropValue.dict [(k, v)]]),
      ?_, ?_, ?_⟩
    · unfold set_property
      rw [List.foldlM_cons]
      simp only [set_one, hscan]
      rfl
    · have h0 := countKey_zero_of_firstDictIdx_none st.properties k hnone
      simp only [countKey] at h0 ⊢
      rw [List.countP_append, h0]
      simp [List.countP_cons, dictMem]
    · exact Or.inr ⟨hnone, rfl, rfl, by simp⟩
  · refine ⟨Props.mk st.isComment
      (st.properties.set i (PropValue.dict (dictUpdate d [(k, v)]))), ?_, ?_, ?_⟩
    · unfold set_property
      rw [List.foldlM_cons]
      simp only [set_one, hscan]
      rfl
    · have hmem2 : dictMem k (dictUpdate d [(k, v)]) = true :=
        dictMem_dictUpdate_singleton d k v
      have hcnt := countP_set_eq
        (fun w => match w with | .dict dd => dictMem k dd | .str _ => false)
        st.properties i (PropValue.dict d) (PropValue.dict (dictUpdate d [(k, v)])) hget
        (by simpa using hmem.trans hmem2.symm)
      have hpos := countP_pos_of_get
        (fun w => match w with | .dict dd => dictMem k dd | .str _ => false)
        st.properties i (PropValue.dict d) hget (by simpa using hmem)
      simp only [countKey] at hpos ⊢
      rw [hcnt]
      exact (Nat.max_eq_left hpos).symm
    · exact Or.inl ⟨i, d, hidx, hget, rfl, rfl, by simp [List.length_set]⟩

/-- C7 single-key update claim witnessed on a store that already holds the key. -/
theorem C7_witness :
    setSingleSpec (Props.mk [0] [.dict [(chars "a", chars "1")]]) (chars "a") (chars "2") :=
  C7_set_single_key (Props.mk [0] [.dict [(chars "a", chars "1")]]) (chars "a") (chars "2")
    (by decide)

/-- C8: on a well-formed store, `get_property` equals the spec-side linear scan
returning the value of the FIRST key-value entry whose key matches and failing with
the key-not-found error (realised as `IndexError`) when no entry matches; with
duplicate keys this first-match result ("1" below) differs from GetAll, which keeps
the last duplicate ("2" below). -/
theorem C8_get_first_match (st : Props) (k : Str) (h : wf st = true) :
    get_property st k = getSpec st.properties k ∧
    (firstMatchVal st.properties k = none → get_property st k = .error .indexError) ∧
    get_property (Props.mk [0, 0]
      [.dict [(chars "a", chars "1")], .dict [(chars "a", chars "2")]]) (chars "a") =
      .ok (chars "1") ∧
    getAllSpec [.dict [(chars "a", chars "1")], .dict [(chars "a", chars "2")]] =
      [(chars "a", chars "2")] := by
  refine ⟨getPropAux_eq_spec st.isComment st.properties k h, ?_, rfl, rfl⟩
  intro hn
  unfold get_property
  rw [getPropAux_eq_spec st.isComment st.properties k h]
  simp [getSpec, hn]

/-- C8 first-match claim witnessed on a store with a duplicated key. -/
theorem C8_witness :
    get_property (Props.mk [0, 0]
        [.dict [(chars "a", chars "1")], .dict [(chars "a", chars "2")]]) (chars "a") =
      getSpec [.dict [(chars "a", chars "1")], .dict [(chars "a", chars "2")]] (chars "a") ∧
    (firstMatchVal [.dict [(chars "a", chars "1")], .dict [(chars "a", chars "2")]]
        (chars "a") = none →
      get_property (Props.mk [0, 0]
        [.dict [(chars "a", chars "1")], .dict [(chars "a", chars "2")]]) (chars "a") =
        .error .indexError) ∧
    get_property (Props.mk [0, 0]
      [.dict [(chars "a", chars "1")], .dict [(chars "a", chars "2")]]) (chars "a") =
      .ok (chars "1") ∧
    getAllSpec [.dict [(chars "a", chars "1")], .dict [(chars "a", chars "2")]] =
      [(chars "a", chars "2")] :=
  C8_get_first_match (Props.mk [0, 0]
    [.dict [(chars "a", chars "1")], .dict [(chars "a", chars "2")]]) (chars "a") (by decide)

/-- C9: on a well-formed store, `get_all_properties` returns the fresh mapping built
by folding the key-value entries in order with `dict.update` (comments excluded), so
a later duplicate key overwrites an earlier one; in particular on the entries
[{"a": "1"}, {"a": "2"}] the result maps "a" to "2". -/
theorem C9_get_all (st : Props) (h : wf st = true) :
    get_all_properties st = .ok (getAllSpec st.properties) ∧
    get_all_properties (Props.mk [0, 0]
      [.dict [(chars "a", chars "1")], .dict [(chars "a", chars "2")]]) =
      .ok [(chars "a", chars "2")] ∧
    dictGet [(chars "a", chars "2")] (chars "a") = some (chars "2") := by
  refine ⟨?_, rfl, rfl⟩
  have hs := getAllAux_eq_spec st.isComment st.properties [] h
  simpa [get_all_properties, getAllSpec] using hs

/-- C9 overwrite-order claim witnessed on a store with a duplicated key. -/
theorem C9_witness :
    get_all_properties (Props.mk [0, 0]
      [.dict [(chars "a", chars "1")], .dict [(chars "a", chars "2")]]) =
      .ok (getAllSpec [.dict [(chars "a", chars "1")], .dict [(chars "a", chars "2")]]) ∧
    get_all_properties (Props.mk [0, 0]
      [.dict [(chars "a", chars "1")], .dict [(chars "a", chars "2")]]) =
      .ok [(chars "a", chars "2")] ∧
    dictGet [(chars "a", chars "2")] (chars "a") = some (chars "2") :=
  C9_get_all (Props.mk [0, 0]
    [.dict [(chars "a", chars "1")], .dict [(chars "a", chars "2")]]) (by decide)

/-- C10: the implicit parallel-lists invariant — `_isComment` and `properties` have
equal length and `_isComment[i]` is 1 exactly on comment strings and 0 exactly on
key-value dicts — holds after construction and is preserved by every mutating
public operation (`fread`/reload, `set_property`, `fwrite`); `get_property` and
`get_all_properties` do not touch the state in this embedding. -/
theorem C10_parallel_invariant :
    (∀ content, wf (Props.init content) = true) ∧
    (∀ st content, wf st = true → wf (fread st content) = true) ∧
    (∀ st kv st2 n, wf st = true → set_property st kv = .ok (st2, n) → wf st2 = true) ∧
    (∀ st out st2, wf st = true → fwrite st = .ok (out, st2) → wf st2 = true) :=
  ⟨wf_init, wf_fread, wf_set_property, wf_fwrite⟩

/-- C10 invariant claim witnessed on concrete runs of init, reload, Set and Save. -/
theorem C10_witness :
    wf (Props.init (chars "# c\na=1\n")) = true ∧
    wf (fread (Props.mk [1] [.str (chars "c")]) (chars "a=1\n")) = true ∧
    wf (Props.mk [0] [.dict [(chars "a", chars "2")]]) = true ∧
    wf (Props.mk [0] [.dict []]) = true :=
  ⟨C10_parallel_invariant.1 (chars "# c\na=1\n"),
   C10_parallel_invariant.2.1 (Props.mk [1] [.str (chars "c")]) (chars "a=1\n") (by decide),
   C10_parallel_invariant.2.2.1 (Props.mk [0] [.dict [(chars "a", chars "1")]])
     [.dict [(chars "a", chars "2")]] (Props.mk [0] [.dict [(chars "a", chars "2")]]) 1
     (by decide) (by decide),
   C10_parallel_invariant.2.2.2 (Props.mk [0] [.dict [(chars "a", chars "1")]])
     (chars "a=1\n") (Props.mk [0] [.dict []]) (by decide) (by decide)⟩
